import Mathlib

/-!
Verification development for the reactive dependency-tracking engine in
`src/reactivity.ts`.  The TypeScript core is embedded shallowly: the global
mutable state of the module (the dependency map, the batch queues, the
batching flags, the stored ref values) becomes an explicit `SysState`
record, and each source function becomes a Lean function from state to
state.  Observer bodies, cleanup callbacks and schedulers are opaque user
code in the source; here an `Observer` record carries exactly the
behavioural bits the engine can observe about them (does the body throw,
does it return a cleanup function, does the pending cleanup throw when
invoked).  Invocations the engine performs are recorded in an event trace.
-/

set_option linter.unusedVariables false

namespace Reactivity

/-- Association-list lookup with decidable key equality (the embedding of a
JS `Map`/`WeakMap` keyed by identity). -/
def alookup {α β : Type} [DecidableEq α] : List (α × β) → α → Option β
  | [], _ => none
  | (k, v) :: rest, k' => if k' = k then some v else alookup rest k'

/-- Association-list update: replaces the binding of `k` if present,
otherwise appends it (the embedding of `Map.set`). -/
def aset {α β : Type} [DecidableEq α] : List (α × β) → α → β → List (α × β)
  | [], k, v => [(k, v)]
  | (k', v') :: rest, k, v =>
      if k' = k then (k, v) :: rest else (k', v') :: aset rest k v

/-- JS primitive values as far as `Object.is` can tell them apart:
`NaN`, `+0`, `-0`, other numbers, strings, and object references
(identified by an id). -/
inductive JSVal where
  | nan
  | posZero
  | negZero
  | intVal (n : Int)
  | str (s : String)
  | objRef (id : Nat)
deriving DecidableEq, Repr

/-- Embedding of `Object.is`: identity / primitive equality where `NaN` equals `NaN`
and `+0` differs from `-0` (embedding of the comparison used by
`RefImpl.set` at src/reactivity.ts:124). -/
def objectIs : JSVal → JSVal → Bool
  | .nan, .nan => true
  | .posZero, .posZero => true
  | .negZero, .negZero => true
  | .intVal a, .intVal b => a = b
  | .str a, .str b => a = b
  | .objRef a, .objRef b => a = b
  | _, _ => false

/-- The engine-visible behaviour of one effect function created by
`effect(update, options)` (src/reactivity.ts:607-662).  `cleanup` models
the `effectFn.cleanup` slot: `some behav` is a pending cleanup closure
whose successive invocations throw according to the list `behav`
(head = next call; an exhausted list never throws again). -/
structure Observer where
  isActive : Bool := true
  hasScheduler : Bool := false
  bodyThrows : Bool := false
  registersCleanup : Bool := false
  regCleanupThrows : Bool := false
  cleanup : Option (List Bool) := none
deriving DecidableEq, Repr

/-- The inactive placeholder returned for an unknown observer id. -/
def defaultObs : Observer :=
  { isActive := false, hasScheduler := false, bodyThrows := false,
    registersCleanup := false, regCleanupThrows := false, cleanup := none }

/-- Trace events: the calls the engine makes into user code. -/
inductive Event where
  /-- the effect function itself was invoked directly (`effect()`) -/
  | exec (id : Nat)
  /-- a zero-argument job was handed to the observer's custom scheduler -/
  | schedJob (id : Nat)
  /-- `console.error` in the `flushBatch` catch block -/
  | errorReported (id : Nat)
  /-- the pending cleanup callback was invoked -/
  | cleanupRun (id : Nat)
  /-- the observer's body (`update()`) was invoked -/
  | bodyRun (id : Nat)
deriving DecidableEq, Repr

/-- The module-level mutable state of src/reactivity.ts (lines 42-55),
restricted to the parts the verified claims exercise.  `deps` is
`targetMap` flattened to ((target id, key) -> dep list in registration
order); JS `Set` iteration order is insertion order, so lists are the
faithful embedding. -/
structure SysState where
  observers : List (Nat × Observer) := []
  deps : List ((Nat × String) × List Nat) := []
  updateQueue : List Nat := []
  scheduledEffects : List Nat := []
  batchStack : Nat := 0
  isBatching : Bool := false
  batchUpdates : Bool := true
  refVals : List (Nat × JSVal) := []
deriving DecidableEq, Repr

def getObsOf (obs : List (Nat × Observer)) (id : Nat) : Observer :=
  (alookup obs id).getD defaultObs

def getObs (s : SysState) (id : Nat) : Observer :=
  getObsOf s.observers id

def setObs (s : SysState) (id : Nat) (o : Observer) : SysState :=
  { s with observers := aset s.observers id o }

def getDepOf (deps : List ((Nat × String) × List Nat)) (t : Nat) (k : String) : List Nat :=
  (alookup deps (t, k)).getD []

def getDep (s : SysState) (t : Nat) (k : String) : List Nat :=
  getDepOf s.deps t k

/-- Event counting in a trace. -/
def countEv : List Event → Event → Nat
  | [], _ => 0
  | x :: xs, e => (if x = e then 1 else 0) + countEv xs e

/-- Occurrence counting in an id list. -/
def cnt : List Nat → Nat → Nat
  | [], _ => 0
  | x :: xs, n => (if x = n then 1 else 0) + cnt xs n

/-- One run of the effect body `update()` (the `try` block of the effect
function, src/reactivity.ts:614-625): it may throw, and if it returns a
function that function becomes the new pending cleanup. -/
def runBody (s : SysState) (id : Nat) : SysState × List Event × Option Nat :=
  if (getObs s id).bodyThrows then (s, [Event.bodyRun id], some id)
  else if (getObs s id).registersCleanup then
    (setObs s id { getObs s id with cleanup := some [(getObs s id).regCleanupThrows] },
     [Event.bodyRun id], none)
  else (s, [Event.bodyRun id], none)

/-- The effect function built by `effect()` (src/reactivity.ts:608-626):
if a cleanup is pending it is invoked first — with NO try/catch, so a
throwing cleanup aborts the run before the body and before the slot is
cleared — then the slot is cleared and the body runs. -/
def runEffectFn (s : SysState) (id : Nat) : SysState × List Event × Option Nat :=
  match (getObs s id).cleanup with
  | some (true :: rest) =>
      (setObs s id { getObs s id with cleanup := some rest }, [Event.cleanupRun id], some id)
  | some (false :: rest) =>
      let r := runBody (setObs s id { getObs s id with cleanup := none }) id
      (r.1, Event.cleanupRun id :: r.2.1, r.2.2)
  | some [] =>
      let r := runBody (setObs s id { getObs s id with cleanup := none }) id
      (r.1, Event.cleanupRun id :: r.2.1, r.2.2)
  | none => runBody s id

/-- Whether `runEffectFn s id` completes without throwing. -/
def runsClean (s : SysState) (id : Nat) : Bool :=
  match (getObs s id).cleanup with
  | some (true :: _) => false
  | _ => !(getObs s id).bodyThrows

/-- The `effectsToRun.forEach` loop of `trigger`
(src/reactivity.ts:314-327): inside an active batch (with `batchUpdates`
enabled) each effect is queued, deduplicated through `scheduledEffects`;
otherwise an effect with a custom scheduler is handed a job and an
ordinary effect is executed synchronously — an exception from it
propagates, aborting the loop. -/
def runTriggerLoop : SysState → List Nat → SysState × List Event × Option Nat
  | s, [] => (s, [], none)
  | s, id :: rest =>
    if s.batchUpdates && s.isBatching then
      if id ∈ s.scheduledEffects then runTriggerLoop s rest
      else runTriggerLoop
        { s with updateQueue := s.updateQueue ++ [id],
                 scheduledEffects := s.scheduledEffects ++ [id] } rest
    else if (getObs s id).hasScheduler then
      let r := runTriggerLoop s rest
      (r.1, Event.schedJob id :: r.2.1, r.2.2)
    else
      let r := runEffectFn s id
      match r.2.2 with
      | some e => (r.1, Event.exec id :: r.2.1, some e)
      | none =>
        let r2 := runTriggerLoop r.1 rest
        (r2.1, (Event.exec id :: r.2.1) ++ r2.2.1, r2.2.2)

/-- The filter building `effectsToRun` (src/reactivity.ts:303-308): keep
members that are not the currently running observer and are still
active. -/
def toRunOf (deps : List ((Nat × String) × List Nat)) (obs : List (Nat × Observer))
    (ae : Option Nat) (t : Nat) (k : String) : List Nat :=
  (getDepOf deps t k).filter (fun id => (some id != ae) && (getObsOf obs id).isActive)

def toRunList (s : SysState) (ae : Option Nat) (t : Nat) (k : String) : List Nat :=
  toRunOf s.deps s.observers ae t k

/-- Embedding of `trigger(target, key)` (src/reactivity.ts:292-328) with the current
`activeEffect` passed explicitly. -/
def trigger (s : SysState) (ae : Option Nat) (t : Nat) (k : String) :
    SysState × List Event × Option Nat :=
  runTriggerLoop s (toRunList s ae t k)

/-- The `effects.forEach` loop of `flushBatch`
(src/reactivity.ts:360-366): every queued effect is invoked directly
(`effect()` — never through its scheduler) inside a per-effect
try/catch, so one throwing effect is reported and the rest still run. -/
def flushLoop : SysState → List Nat → SysState × List Event
  | s, [] => (s, [])
  | s, id :: rest =>
    let r := runEffectFn s id
    let evs := Event.exec id :: r.2.1 ++
      (match r.2.2 with | some _ => [Event.errorReported id] | none => [])
    let r2 := flushLoop r.1 rest
    (r2.1, evs ++ r2.2)

/-- Embedding of `flushBatch()` (src/reactivity.ts:348-367): reset the batching flags,
snapshot and clear the queues, then run every snapshotted effect. -/
def flushBatch (s : SysState) : SysState × List Event :=
  flushLoop
    { s with isBatching := false, batchStack := 0,
             updateQueue := [], scheduledEffects := [] }
    s.updateQueue

/-- Embedding of the `RefImpl` value setter (src/reactivity.ts:123-128): compare with
`Object.is`; on equality do nothing, otherwise store and trigger the
synthetic "value" key. -/
def refSet (s : SysState) (ae : Option Nat) (t : Nat) (v : JSVal) :
    SysState × List Event × Option Nat :=
  match alookup s.refVals t with
  | none => (s, [], none)
  | some old =>
    if objectIs old v then (s, [], none)
    else trigger { s with refVals := aset s.refVals t v } ae t "value"

/-- The `stop` closure returned by `effect()` (src/reactivity.ts:633-649):
if still active, unregister from every dependency set, clear the active
flag, invoke a pending cleanup (no try/catch — a throw propagates and
skips the queue-removal steps), then remove the effect from the pending
batch queues. -/
def stopEffect (s : SysState) (id : Nat) : SysState × List Event × Option Nat :=
  if (getObs s id).isActive then
    let s1 := { s with deps := s.deps.map (fun p => (p.1, p.2.filter (fun j => j != id))) }
    match (getObs s id).cleanup with
    | some (true :: rest) =>
        (setObs s1 id { getObs s id with isActive := false, cleanup := some rest },
         [Event.cleanupRun id], some id)
    | some (false :: rest) =>
        ({ setObs s1 id { getObs s id with isActive := false, cleanup := some rest } with
            updateQueue := s.updateQueue.filter (fun j => j != id),
            scheduledEffects := s.scheduledEffects.filter (fun j => j != id) },
         [Event.cleanupRun id], none)
    | some [] =>
        ({ setObs s1 id { getObs s id with isActive := false } with
            updateQueue := s.updateQueue.filter (fun j => j != id),
            scheduledEffects := s.scheduledEffects.filter (fun j => j != id) },
         [Event.cleanupRun id], none)
    | none =>
        ({ setObs s1 id { getObs s id with isActive := false } with
            updateQueue := s.updateQueue.filter (fun j => j != id),
            scheduledEffects := s.scheduledEffects.filter (fun j => j != id) },
         [], none)
  else (s, [], none)

/-- The body of a `batch(fn)` callback, as the engine sees it: a tree of
ref/property writes (each compiled to a `trigger` call on a changed
value), sequencing, and nested `batch` calls. -/
inductive BCmd where
  | skip
  | write (t : Nat) (k : String)
  | seq (a b : BCmd)
  | nest (body : BCmd)
deriving DecidableEq, Repr

/-- Embedding of `batch(fn)` and the statements of `fn` (src/reactivity.ts:752-773):
enter — `batchStack++`, remember `wasBatching`, set `isBatching` — run
the body (aborting on a thrown exception: the catch block zeroes the
batch state, clears both queues and rethrows), `batchStack--`, and only
the outermost call (`batchStack == 0 && !wasBatching`) flushes. -/
def interpCmd : SysState → BCmd → SysState × List Event × Option Nat
  | s, .skip => (s, [], none)
  | s, .write t k => trigger s none t k
  | s, .seq a b =>
    let r := interpCmd s a
    match r.2.2 with
    | some e => (r.1, r.2.1, some e)
    | none =>
      let r2 := interpCmd r.1 b
      (r2.1, r.2.1 ++ r2.2.1, r2.2.2)
  | s, .nest body =>
    let wasB := s.isBatching
    let s1 := { s with batchStack := s.batchStack + 1, isBatching := true }
    let r := interpCmd s1 body
    match r.2.2 with
    | some e =>
        ({ r.1 with batchStack := 0, isBatching := false,
                    updateQueue := [], scheduledEffects := [] }, r.2.1, some e)
    | none =>
        let s3 := { r.1 with batchStack := r.1.batchStack - 1 }
        if s3.batchStack = 0 && wasB = false then
          let f := flushBatch s3
          (f.1, r.2.1 ++ f.2, none)
        else (s3, r.2.1, none)

/-- The (target, key) pairs written somewhere inside a batch body. -/
def writesOf : BCmd → List (Nat × String)
  | .skip => []
  | .write t k => [(t, k)]
  | .seq a b => writesOf a ++ writesOf b
  | .nest body => writesOf body

/-! ## Computed cell (`ComputedRefImpl`, src/reactivity.ts:156-217)

Only the dirty-flag protocol matters for the memoization claim, so the
state keeps the flag plus a counter of getter executions.  `read` is the
`value` getter (lines 187-200): recompute — running the getter once —
only when dirty, then clear the flag.  `depChange` is the scheduler wired
into the lazily created inner effect (lines 175-183): invoked when a
dependency of the getter changes, it raises the dirty flag if it was
clear. -/

structure ComputedState where
  dirty : Bool := true
  getterRuns : Nat := 0
deriving DecidableEq, Repr

inductive CompOp where
  | read
  | depChange
deriving DecidableEq, Repr

def compStep (c : ComputedState) : CompOp → ComputedState
  | .read =>
      if c.dirty then { dirty := false, getterRuns := c.getterRuns + 1 } else c
  | .depChange =>
      if !c.dirty then { c with dirty := true } else c

def compRun (c : ComputedState) (ops : List CompOp) : ComputedState :=
  ops.foldl compStep c

/-! ## Deep wrapper depth limiting (`reactive`, src/reactivity.ts:539-556)

`reactive(target, depth = 0)` returns the target raw when
`depth > deepReactiveMaxDepth` or the target is not an eligible
composite; otherwise it returns a proxy.  The get traps
(objectHandlers.get, line 494, and arrayHandlers.get, line 447) wrap an
eligible read result with `reactive(res)` — the depth argument is left
at its default 0.  `JVal` is a composite-or-primitive value tree, and a
read chain through proxies is folded over a path of keys, recording
whether the value currently held is a proxy or raw. -/

inductive JVal where
  | prim (n : Nat)
  | obj (fields : List (String × JVal))

def eligible : JVal → Bool
  | .prim _ => false
  | .obj _ => true

def getF (v : JVal) (k : String) : JVal :=
  match v with
  | .obj fields => (alookup fields k).getD (.prim 0)
  | .prim _ => .prim 0

/-- Wrapped-or-raw result of a read through the reactive layer. -/
inductive RVal where
  | raw (v : JVal)
  | wrapped (v : JVal)

def isWrapped : RVal → Bool
  | .raw _ => false
  | .wrapped _ => true

/-- Embedding of `reactive(target, depth)` as the code implements it: the depth check,
the eligibility check, then a proxy (the identity cache only dedupes
proxy objects and does not change wrapped-vs-raw, so it is omitted). -/
def reactive (maxDepth : Nat) (depth : Nat) (v : JVal) : RVal :=
  if depth > maxDepth then .raw v
  else if !eligible v then .raw v
  else .wrapped v

/-- One property read as the code's get trap performs it
(src/reactivity.ts:487-495): fetch the underlying value and wrap an
eligible result with `reactive(res)` — depth argument defaulted to 0. -/
def readStep (maxDepth : Nat) : RVal → String → RVal
  | .wrapped v, k =>
      let res := getF v k
      if eligible res then reactive maxDepth 0 res else .raw res
  | .raw v, k => .raw (getF v k)

/-- Reading a key path starting from `reactive(target)`. -/
def readPath (maxDepth : Nat) (v : JVal) (path : List String) : RVal :=
  path.foldl (readStep maxDepth) (reactive maxDepth 0 v)

/-- Modelled from the spec: the get trap as §4.4 of the spec describes it
("recursively wrap it if eligible (depth+1)"), carrying the nesting
depth of the proxy being read so the recursive wrap is performed at
depth+1.  This is the comparison point showing what the code's trap
fails to do. -/
def readStepSpec (maxDepth : Nat) : RVal × Nat → String → RVal × Nat
  | (.wrapped v, d), k =>
      let res := getF v k
      if eligible res then (reactive maxDepth (d + 1) res, d + 1)
      else (.raw res, d + 1)
  | (.raw v, d), k => (.raw (getF v k), d + 1)

/-- Modelled from the spec: reading a key path with the spec's depth+1
recursive wrapping. -/
def readPathSpec (maxDepth : Nat) (v : JVal) (path : List String) : RVal :=
  (path.foldl (readStepSpec maxDepth) (reactive maxDepth 0 v, 0)).1

/-- A chain of nested single-field objects: `chainObj 0` is a primitive
and `chainObj (n+1) = { a: chainObj n }`. -/
def chainObj : Nat → JVal
  | 0 => .prim 7
  | n + 1 => .obj [("a", chainObj n)]

/-! ## Array proxies copy the target (`reactive`, src/reactivity.ts:547-549)

For an array target the code builds `const array = [...target]` and
proxies the copy, so the proxy and the original never share element
storage.  Elements are `Option Int` (with `none` standing for a deleted
hole); index writes, `delete`, and the intercepted mutating methods
(src/reactivity.ts:411-428 apply `Array.prototype[method]` to the proxy
target, i.e. the copy) all touch only the copy, and raw mutations of the
original bypass the proxy entirely. -/

structure ReactiveArr where
  original : List (Option Int)
  target : List (Option Int)
deriving DecidableEq, Repr

/-- Embedding of `reactive` on an array target: proxy over a shallow copy. -/
def reactiveArray (a : List (Option Int)) : ReactiveArr :=
  { original := a, target := a }

def setIdx : List (Option Int) → Nat → Option Int → List (Option Int)
  | [], _, _ => []
  | _ :: rest, 0, v => v :: rest
  | x :: rest, n + 1, v => x :: setIdx rest n v

/-- An index write through the proxy (arrayHandlers.set → `Reflect.set`
on the proxy target, the copy). -/
def arraySet (r : ReactiveArr) (i : Nat) (v : Option Int) : ReactiveArr :=
  { r with target := setIdx r.target i v }

/-- Embedding of `delete proxy[i]` (arrayHandlers.deleteProperty on the copy). -/
def arrayDelete (r : ReactiveArr) (i : Nat) : ReactiveArr :=
  { r with target := setIdx r.target i none }

/-- Embedding of `proxy.push(v)` (createArrayMethodHandler applies push to the copy). -/
def arrayPush (r : ReactiveArr) (v : Int) : ReactiveArr :=
  { r with target := r.target ++ [some v] }

/-- Embedding of `proxy.pop()` (createArrayMethodHandler applies pop to the copy). -/
def arrayPop (r : ReactiveArr) : ReactiveArr :=
  { r with target := r.target.dropLast }

/-- An index read through the proxy (arrayHandlers.get reads the copy). -/
def arrayGet (r : ReactiveArr) (i : Nat) : Option (Option Int) :=
  r.target.get? i

/-- A raw write applied directly to the original array, bypassing the
proxy and all its handlers. -/
def originalSet (r : ReactiveArr) (i : Nat) (v : Option Int) : ReactiveArr :=
  { r with original := setIdx r.original i v }

/-! ## The watch stop handle (`watch`, src/reactivity.ts:672-730)

The handle returned at lines 724-729 closes over the underlying effect's
stop function and the `pendingCleanup` slot: it calls `stop()`, then — if
`pendingCleanup` is non-null — invokes it, WITHOUT nulling the slot.
Once the effect is stopped its body never runs again, so nothing else
can clear the slot.  `cleanupRuns` counts the invocations of the pending
cleanup. -/

structure WatchState where
  effectActive : Bool := true
  pendingCleanup : Bool := false
  cleanupRuns : Nat := 0
deriving DecidableEq, Repr

/-- The stop handle returned by `watch` (src/reactivity.ts:724-729). -/
def watchStopHandle (w : WatchState) : WatchState :=
  let w1 := if w.effectActive then { w with effectActive := false } else w
  if w1.pendingCleanup then { w1 with cleanupRuns := w1.cleanupRuns + 1 } else w1

/-- Calling the stop handle `k` times in a row. -/
def iterHandle : Nat → WatchState → WatchState
  | 0, w => w
  | k + 1, w => iterHandle k (watchStopHandle w)

/-! ## Specification-side helper definitions used only in statements -/

/-- One queueing step of `trigger` inside a batch, on the pair
(updateQueue, scheduledEffects). -/
def enq1 (p : List Nat × List Nat) (x : Nat) : List Nat × List Nat :=
  if x ∈ p.2 then p else (p.1 ++ [x], p.2 ++ [x])

def enqAll (p : List Nat × List Nat) (l : List Nat) : List Nat × List Nat :=
  l.foldl enq1 p

/-- Deduplicating append of the ids of `l` onto `q`. -/
def dd (q : List Nat) : List Nat → List Nat
  | [] => q
  | x :: xs => if x ∈ q then dd q xs else dd (q ++ [x]) xs

/-- All observers routed by the triggers fired while interpreting a batch
body, in trigger order (the dependency map and observer table do not
change during a batch in this model, so they are passed once). -/
def trigTargets (deps : List ((Nat × String) × List Nat))
    (obs : List (Nat × Observer)) : BCmd → List Nat
  | .skip => []
  | .write t k => toRunOf deps obs none t k
  | .seq a b => trigTargets deps obs a ++ trigTargets deps obs b
  | .nest body => trigTargets deps obs body

/-- The observer id an event is about. -/
def mentions : Event → Nat
  | .exec i => i
  | .schedJob i => i
  | .errorReported i => i
  | .cleanupRun i => i
  | .bodyRun i => i

/-- Total count of trigger notifications (direct executions plus
scheduler jobs) delivered to observer `j` in a trace. -/
def notifCount (ev : List Event) (j : Nat) : Nat :=
  countEv ev (Event.exec j) + countEv ev (Event.schedJob j)

/-- Relation stating `s'` agrees with `s` on every piece of global state except the
observer table (used to frame what running one effect body can touch). -/
def FrameEq (s s' : SysState) : Prop :=
  s'.deps = s.deps ∧ s'.updateQueue = s.updateQueue ∧
  s'.scheduledEffects = s.scheduledEffects ∧ s'.batchStack = s.batchStack ∧
  s'.isBatching = s.isBatching ∧ s'.batchUpdates = s.batchUpdates ∧
  s'.refVals = s.refVals

/-! ## Concrete scenario states used by claim counterexamples and witnesses -/

/-- One active observer (id 0) with a custom scheduler, depending on
(target 5, "value"); clean initial batch state, `batchUpdates` on. -/
def stSched : SysState :=
  { observers := [(0, { hasScheduler := true })],
    deps := [((5, "value"), [0])] }

/-- One active observer (id 0) whose pending cleanup throws on its first
invocation, already queued inside an active batch, depending on
(target 1, "value"). -/
def stQueuedThrow : SysState :=
  { observers := [(0, { cleanup := some [true] })],
    deps := [((1, "value"), [0])],
    updateQueue := [0], scheduledEffects := [0],
    batchStack := 1, isBatching := true }

/-- Same shape as `stQueuedThrow` but the pending cleanup does not
throw. -/
def stQueuedClean : SysState :=
  { observers := [(0, { cleanup := some [false] })],
    deps := [((1, "value"), [0])],
    updateQueue := [0], scheduledEffects := [0],
    batchStack := 1, isBatching := true }

/-- A ref (target 7) holding NaN with one active dependent (id 0) and one
stopped dependent (id 1) on its "value" key; not batching. -/
def stRef : SysState :=
  { observers := [(0, {}), (1, { isActive := false })],
    deps := [((7, "value"), [0, 1])],
    refVals := [(7, JSVal.nan)] }

/-- Two active observers on (target 3, "k"), the first with a throwing
body, both queued inside an active batch. -/
def stTwoQueued : SysState :=
  { observers := [(0, { bodyThrows := true }), (1, {})],
    deps := [((3, "k"), [0, 1])],
    updateQueue := [0, 1], scheduledEffects := [0, 1],
    batchStack := 1, isBatching := true }

/-- The same two observers (throwing body first) outside any batch with
empty queues. -/
def stTwoDirect : SysState :=
  { observers := [(0, { bodyThrows := true }), (1, {})],
    deps := [((3, "k"), [0, 1])] }

/-- Two active plain observers: id 0 depends on both (5,"value") and
(6,"value"), id 1 only on (6,"value"); clean non-batching state. -/
def stTwoDeps : SysState :=
  { observers := [(0, {}), (1, {})],
    deps := [((5, "value"), [0]), ((6, "value"), [0, 1])] }

/-- State `stTwoDeps` just after entering the outermost `batch` call. -/
def stTwoDepsIn : SysState :=
  { stTwoDeps with batchStack := stTwoDeps.batchStack + 1, isBatching := true }

/-- The batch body used in the C4 witness: a write, then a nested batch
performing two more writes (one repeated). -/
def bodyW : BCmd :=
  BCmd.seq (BCmd.write 5 "value")
    (BCmd.nest (BCmd.seq (BCmd.write 6 "value") (BCmd.write 5 "value")))


/-!
Theorems.

Basic list and counting lemmas, then behavioural lemmas for each engine
function, then one theorem per verified claim.
-/

theorem alookup_aset_self {α β : Type} [DecidableEq α]
    (l : List (α × β)) (k : α) (v : β) : alookup (aset l k v) k = some v := by
  induction l with
  | nil => simp [alookup, aset]
  | cons h t ih =>
      obtain ⟨k', v'⟩ := h
      by_cases hk : k' = k
      · simp [aset, hk, alookup]
      · simp [aset, hk, alookup, Ne.symm hk, ih]

theorem alookup_aset_ne {α β : Type} [DecidableEq α]
    (l : List (α × β)) (k k' : α) (v : β) (h : k' ≠ k) :
    alookup (aset l k v) k' = alookup l k' := by
  induction l with
  | nil => simp [alookup, aset, h]
  | cons hd t ih =>
      obtain ⟨k₀, v₀⟩ := hd
      by_cases hk : k₀ = k
      · subst hk
        simp [aset, alookup, h]
      · simp only [aset, if_neg hk, alookup]
        by_cases hk' : k' = k₀ <;> simp [hk', ih]

theorem alookup_map_snd {α β γ : Type} [DecidableEq α] (f : β → γ)
    (l : List (α × β)) (k : α) :
    alookup (l.map (fun p => (p.1, f p.2))) k = (alookup l k).map f := by
  induction l with
  | nil => simp [alookup]
  | cons hd t ih =>
      obtain ⟨k₀, v₀⟩ := hd
      by_cases hk : k = k₀ <;> simp [alookup, hk, ih]

@[simp] theorem countEv_nil (e : Event) : countEv [] e = 0 := rfl

@[simp] theorem countEv_cons (x : Event) (xs : List Event) (e : Event) :
    countEv (x :: xs) e = (if x = e then 1 else 0) + countEv xs e := rfl

theorem countEv_append (a b : List Event) (e : Event) :
    countEv (a ++ b) e = countEv a e + countEv b e := by
  induction a with
  | nil => simp
  | cons x xs ih => simp [ih]; omega

theorem countEv_eq_zero_of_not_mem {ev : List Event} {e : Event} (h : e ∉ ev) :
    countEv ev e = 0 := by
  induction ev with
  | nil => rfl
  | cons x xs ih =>
      simp only [List.mem_cons, not_or] at h
      simp [Ne.symm h.1, ih h.2]

@[simp] theorem cnt_nil (n : Nat) : cnt [] n = 0 := rfl

@[simp] theorem cnt_cons (x : Nat) (xs : List Nat) (n : Nat) :
    cnt (x :: xs) n = (if x = n then 1 else 0) + cnt xs n := rfl

theorem cnt_append (a b : List Nat) (n : Nat) :
    cnt (a ++ b) n = cnt a n + cnt b n := by
  induction a with
  | nil => simp
  | cons x xs ih => simp [ih]; omega

theorem cnt_eq_zero_of_not_mem {l : List Nat} {n : Nat} (h : n ∉ l) :
    cnt l n = 0 := by
  induction l with
  | nil => rfl
  | cons x xs ih =>
      simp only [List.mem_cons, not_or] at h
      simp [Ne.symm h.1, ih h.2]

theorem cnt_eq_one_of_nodup_mem {l : List Nat} {n : Nat}
    (hd : l.Nodup) (hm : n ∈ l) : cnt l n = 1 := by
  induction l with
  | nil => cases hm
  | cons x xs ih =>
      rcases List.mem_cons.mp hm with h | h
      · subst h
        have hx : n ∉ xs := (List.nodup_cons.mp hd).1
        simp [cnt_eq_zero_of_not_mem hx]
      · have hne : x ≠ n := by
          rintro rfl
          exact (List.nodup_cons.mp hd).1 h
        simp [hne, ih (List.nodup_cons.mp hd).2 h]

@[simp] theorem getObs_setObs_self (s : SysState) (id : Nat) (o : Observer) :
    getObs (setObs s id o) id = o := by
  simp [getObs, setObs, getObsOf, alookup_aset_self]

theorem getObs_setObs_ne (s : SysState) (id j : Nat) (o : Observer) (h : j ≠ id) :
    getObs (setObs s id o) j = getObs s j := by
  simp [getObs, setObs, getObsOf, alookup_aset_ne _ _ _ _ h]

theorem frameEq_refl (s : SysState) : FrameEq s s :=
  ⟨rfl, rfl, rfl, rfl, rfl, rfl, rfl⟩

theorem frameEq_trans {s₁ s₂ s₃ : SysState}
    (h₁ : FrameEq s₁ s₂) (h₂ : FrameEq s₂ s₃) : FrameEq s₁ s₃ := by
  obtain ⟨a1, a2, a3, a4, a5, a6, a7⟩ := h₁
  obtain ⟨b1, b2, b3, b4, b5, b6, b7⟩ := h₂
  exact ⟨b1.trans a1, b2.trans a2, b3.trans a3, b4.trans a4,
         b5.trans a5, b6.trans a6, b7.trans a7⟩

theorem frameEq_setObs (s : SysState) (id : Nat) (o : Observer) :
    FrameEq s (setObs s id o) :=
  ⟨rfl, rfl, rfl, rfl, rfl, rfl, rfl⟩

/-! ### Behaviour of one effect run (`runBody`, `runEffectFn`) -/

theorem runBody_frame (s : SysState) (id : Nat) :
    FrameEq s (runBody s id).1 ∧
    ∀ j, j ≠ id → getObs (runBody s id).1 j = getObs s j := by
  unfold runBody
  by_cases hb : (getObs s id).bodyThrows = true
  · rw [if_pos hb]
    exact ⟨frameEq_refl s, fun j _ => rfl⟩
  · rw [if_neg hb]
    by_cases hr : (getObs s id).registersCleanup = true
    · rw [if_pos hr]
      exact ⟨frameEq_setObs _ _ _, fun j hj => getObs_setObs_ne _ _ _ _ hj⟩
    · rw [if_neg hr]
      exact ⟨frameEq_refl s, fun j _ => rfl⟩

theorem runBody_events (s : SysState) (id : Nat) :
    (runBody s id).2.1 = [Event.bodyRun id] := by
  unfold runBody
  by_cases hb : (getObs s id).bodyThrows
  · simp [hb]
  · by_cases hr : (getObs s id).registersCleanup <;> simp [hb, hr]

theorem runBody_err (s : SysState) (id : Nat) :
    (runBody s id).2.2 = if (getObs s id).bodyThrows then some id else none := by
  unfold runBody
  by_cases hb : (getObs s id).bodyThrows
  · simp [hb]
  · by_cases hr : (getObs s id).registersCleanup <;> simp [hb, hr]

theorem runEffectFn_frame (s : SysState) (id : Nat) :
    FrameEq s (runEffectFn s id).1 ∧
    ∀ j, j ≠ id → getObs (runEffectFn s id).1 j = getObs s j := by
  unfold runEffectFn
  rcases hcl : (getObs s id).cleanup with _ | bl
  · simp only
    exact runBody_frame s id
  · rcases bl with _ | ⟨b, rest⟩
    · simp only
      refine ⟨frameEq_trans (frameEq_setObs _ _ _) (runBody_frame _ id).1, ?_⟩
      intro j hj
      rw [(runBody_frame _ id).2 j hj, getObs_setObs_ne _ _ _ _ hj]
    · cases b
      · simp only
        refine ⟨frameEq_trans (frameEq_setObs _ _ _) (runBody_frame _ id).1, ?_⟩
        intro j hj
        rw [(runBody_frame _ id).2 j hj, getObs_setObs_ne _ _ _ _ hj]
      · simp only
        exact ⟨frameEq_setObs _ _ _, fun j hj => getObs_setObs_ne _ _ _ _ hj⟩

theorem runEffectFn_events (s : SysState) (id : Nat) :
    ∀ e ∈ (runEffectFn s id).2.1,
      e = Event.cleanupRun id ∨ e = Event.bodyRun id := by
  unfold runEffectFn
  rcases hcl : (getObs s id).cleanup with _ | bl
  · simp only
    rw [runBody_events]
    intro e he
    rcases List.mem_singleton.mp he with rfl
    exact Or.inr rfl
  · rcases bl with _ | ⟨b, rest⟩
    · simp only
      rw [runBody_events]
      intro e he
      rcases List.mem_cons.mp he with rfl | he'
      · exact Or.inl rfl
      · rcases List.mem_singleton.mp he' with rfl
        exact Or.inr rfl
    · cases b
      · simp only
        rw [runBody_events]
        intro e he
        rcases List.mem_cons.mp he with rfl | he'
        · exact Or.inl rfl
        · rcases List.mem_singleton.mp he' with rfl
          exact Or.inr rfl
      · simp only
        intro e he
        rcases List.mem_singleton.mp he with rfl
        exact Or.inl rfl

theorem runEffectFn_countEv (s : SysState) (id : Nat) (e : Event)
    (h₁ : e ≠ Event.cleanupRun id) (h₂ : e ≠ Event.bodyRun id) :
    countEv (runEffectFn s id).2.1 e = 0 := by
  refine countEv_eq_zero_of_not_mem (fun hm => ?_)
  rcases runEffectFn_events s id e hm with h | h
  · exact h₁ h
  · exact h₂ h

theorem runEffectFn_err_none (s : SysState) (id : Nat)
    (h : runsClean s id = true) : (runEffectFn s id).2.2 = none := by
  unfold runsClean at h
  unfold runEffectFn
  rcases hcl : (getObs s id).cleanup with _ | bl
  · rw [hcl] at h
    simp only at h ⊢
    rw [runBody_err]
    have hb : (getObs s id).bodyThrows = false := by simpa using h
    simp [hb]
  · rcases bl with _ | ⟨b, rest⟩
    · rw [hcl] at h
      simp only at h ⊢
      rw [runBody_err]
      have hb : (getObs s id).bodyThrows = false := by simpa using h
      simp [hb]
    · cases b
      · rw [hcl] at h
        simp only at h ⊢
        rw [runBody_err]
        have hb : (getObs s id).bodyThrows = false := by simpa using h
        simp [hb]
      · rw [hcl] at h
        simp at h

theorem runEffectFn_err_some (s : SysState) (id : Nat)
    (h : runsClean s id = false) : (runEffectFn s id).2.2 = some id := by
  unfold runsClean at h
  unfold runEffectFn
  rcases hcl : (getObs s id).cleanup with _ | bl
  · rw [hcl] at h
    simp only at h ⊢
    rw [runBody_err]
    have hb : (getObs s id).bodyThrows = true := by simpa using h
    simp [hb]
  · rcases bl with _ | ⟨b, rest⟩
    · rw [hcl] at h
      simp only at h ⊢
      rw [runBody_err]
      have hb : (getObs s id).bodyThrows = true := by simpa using h
      simp [hb]
    · cases b
      · rw [hcl] at h
        simp only at h ⊢
        rw [runBody_err]
        have hb : (getObs s id).bodyThrows = true := by simpa using h
        simp [hb]
      · simp only

theorem runsClean_of_frame {s s' : SysState} {j : Nat}
    (h : getObs s' j = getObs s j) : runsClean s' j = runsClean s j := by
  unfold runsClean
  rw [h]

/-! ### The trigger loop inside a batch: pure queueing -/

theorem runTriggerLoop_batching (l : List Nat) : ∀ s : SysState,
    s.batchUpdates = true → s.isBatching = true →
    runTriggerLoop s l =
      ({ s with updateQueue := (enqAll (s.updateQueue, s.scheduledEffects) l).1,
                scheduledEffects := (enqAll (s.updateQueue, s.scheduledEffects) l).2 },
       [], none) := by
  induction l with
  | nil =>
      intro s hbu hib
      simp [runTriggerLoop, enqAll]
  | cons x xs ih =>
      intro s hbu hib
      simp only [runTriggerLoop, hbu, hib, Bool.and_self, if_true]
      by_cases hx : x ∈ s.scheduledEffects
      · rw [if_pos hx, ih s hbu hib]
        simp [enqAll, enq1, hx, hbu, hib]
      · rw [if_neg hx, ih _ (by simp [hbu]) (by simp [hib])]
        simp [enqAll, enq1, hx, hbu, hib]

theorem enqAll_diag (l : List Nat) : ∀ q : List Nat,
    enqAll (q, q) l = (dd q l, dd q l) := by
  induction l with
  | nil => intro q; rfl
  | cons x xs ih =>
      intro q
      by_cases hx : x ∈ q
      · simpa [enqAll, enq1, hx, dd] using ih q
      · simpa [enqAll, enq1, hx, dd] using ih (q ++ [x])

theorem dd_nodup (l : List Nat) : ∀ q : List Nat, q.Nodup → (dd q l).Nodup := by
  induction l with
  | nil => intro q hq; exact hq
  | cons x xs ih =>
      intro q hq
      by_cases hx : x ∈ q
      · simpa [dd, hx] using ih q hq
      · have hq' : (q ++ [x]).Nodup := by
          simp [List.nodup_append, hq, hx]
        simpa [dd, hx] using ih (q ++ [x]) hq'

theorem dd_mem (l : List Nat) : ∀ (q : List Nat) (n : Nat),
    n ∈ dd q l ↔ n ∈ q ∨ n ∈ l := by
  induction l with
  | nil => intro q n; simp [dd]
  | cons x xs ih =>
      intro q n
      by_cases hx : x ∈ q
      · rw [show dd q (x :: xs) = dd q xs from by simp [dd, hx], ih]
        constructor
        · rintro (h | h)
          · exact Or.inl h
          · exact Or.inr (List.mem_cons_of_mem _ h)
        · rintro (h | h)
          · exact Or.inl h
          · rcases List.mem_cons.mp h with rfl | h'
            · exact Or.inl hx
            · exact Or.inr h'
      · rw [show dd q (x :: xs) = dd (q ++ [x]) xs from by simp [dd, hx], ih]
        simp only [List.mem_append, List.mem_singleton, List.mem_cons]
        tauto

/-! ### The trigger loop outside a batch: direct routing -/

theorem runTriggerLoop_direct (l : List Nat) : ∀ s : SysState,
    (s.batchUpdates && s.isBatching) = false → l.Nodup →
    (∀ j ∈ l, (getObs s j).hasScheduler = true ∨ runsClean s j = true) →
    (runTriggerLoop s l).2.2 = none ∧
    ∀ j : Nat,
      countEv (runTriggerLoop s l).2.1 (Event.schedJob j) =
        (if j ∈ l ∧ (getObs s j).hasScheduler = true then 1 else 0) ∧
      countEv (runTriggerLoop s l).2.1 (Event.exec j) =
        (if j ∈ l ∧ (getObs s j).hasScheduler = false then 1 else 0) := by
  induction l with
  | nil =>
      intro s hb hnd hcl
      refine ⟨rfl, fun j => ?_⟩
      simp [runTriggerLoop]
  | cons x xs ih =>
      intro s hb hnd hcl
      have hxnotin : x ∉ xs := (List.nodup_cons.mp hnd).1
      have hndxs : xs.Nodup := (List.nodup_cons.mp hnd).2
      simp only [runTriggerLoop, hb, Bool.false_eq_true, if_false]
      by_cases hsched : (getObs s x).hasScheduler = true
      case pos =>
          rw [if_pos hsched]
          obtain ⟨iherr, ihcnt⟩ :=
            ih s hb hndxs (fun j hj => hcl j (List.mem_cons_of_mem _ hj))
          refine ⟨iherr, fun j => ?_⟩
          obtain ⟨ihs, ihe⟩ := ihcnt j
          constructor
          · rw [countEv_cons, ihs]
            by_cases hjx : j = x
            · subst hjx
              simp [hxnotin, hsched]
            · have : Event.schedJob x ≠ Event.schedJob j := by
                simp [Ne.symm hjx]
              simp only [if_neg this]
              by_cases hjxs : j ∈ xs
              · simp [hjxs, List.mem_cons, hjx]
              · simp [hjxs, List.mem_cons, hjx]
          · rw [countEv_cons, ihe]
            have : Event.schedJob x ≠ Event.exec j := by simp
            rw [if_neg this]
            by_cases hjx : j = x
            · subst hjx
              simp [hxnotin, hsched]
            · simp only [List.mem_cons]
              by_cases hjxs : j ∈ xs <;> simp [hjxs, hjx]
      case neg =>
          rw [if_neg hsched]
          have hsched' : (getObs s x).hasScheduler = false :=
            Bool.not_eq_true _ ▸ Bool.eq_false_iff.mpr hsched
          have hclean : runsClean s x = true := by
            rcases hcl x (List.mem_cons_self x xs) with h | h
            · exact absurd h hsched
            · exact h
          have herr : (runEffectFn s x).2.2 = none := runEffectFn_err_none s x hclean
          simp only [herr]
          obtain ⟨hfr, hobs⟩ := runEffectFn_frame s x
          obtain ⟨f1, f2, f3, f4, f5, f6, f7⟩ := hfr
          have hb' : ((runEffectFn s x).1.batchUpdates && (runEffectFn s x).1.isBatching) = false := by
            rw [f5, f6]; exact hb
          have hcl' : ∀ j ∈ xs,
              (getObs (runEffectFn s x).1 j).hasScheduler = true ∨
              runsClean (runEffectFn s x).1 j = true := by
            intro j hj
            have hjx : j ≠ x := fun h => hxnotin (h ▸ hj)
            rw [hobs j hjx, runsClean_of_frame (hobs j hjx)]
            exact hcl j (List.mem_cons_of_mem _ hj)
          obtain ⟨iherr, ihcnt⟩ := ih _ hb' hndxs hcl'
          refine ⟨iherr, fun j => ?_⟩
          obtain ⟨ihs, ihe⟩ := ihcnt j
          have hevs : ∀ e : Event,
              e ≠ Event.cleanupRun x → e ≠ Event.bodyRun x →
              countEv ((Event.exec x :: (runEffectFn s x).2.1) ++
                (runTriggerLoop (runEffectFn s x).1 xs).2.1) e =
              (if Event.exec x = e then 1 else 0) +
              countEv (runTriggerLoop (runEffectFn s x).1 xs).2.1 e := by
            intro e h1 h2
            rw [countEv_append, countEv_cons, runEffectFn_countEv s x e h1 h2]
            omega
          constructor
          · rw [hevs (Event.schedJob j) (by simp) (by simp), ihs]
            have hne : Event.exec x ≠ Event.schedJob j := by simp
            rw [if_neg hne]
            by_cases hjx : j = x
            · subst hjx
              simp [hxnotin, hsched']
            · have hgj : getObs (runEffectFn s x).1 j = getObs s j := hobs j hjx
              rw [hgj]
              simp only [List.mem_cons]
              by_cases hjxs : j ∈ xs <;> simp [hjxs, hjx]
          · rw [hevs (Event.exec j) (by simp) (by simp), ihe]
            by_cases hjx : j = x
            · subst hjx
              simp [hxnotin, hsched']
            · have hne : Event.exec x ≠ Event.exec j := by simp [Ne.symm hjx]
              rw [if_neg hne]
              have hgj : getObs (runEffectFn s x).1 j = getObs s j := hobs j hjx
              rw [hgj]
              simp only [List.mem_cons]
              by_cases hjxs : j ∈ xs <;> simp [hjxs, hjx]

/-! ### Which observers a trace can mention -/

theorem runEffectFn_mentions (s : SysState) (id : Nat) :
    ∀ e ∈ (runEffectFn s id).2.1, mentions e = id := by
  intro e he
  rcases runEffectFn_events s id e he with rfl | rfl <;> rfl

theorem runTriggerLoop_mentions (l : List Nat) : ∀ (s : SysState) (e : Event),
    e ∈ (runTriggerLoop s l).2.1 → mentions e ∈ l := by
  induction l with
  | nil =>
      intro s e he
      simp [runTriggerLoop] at he
  | cons x xs ih =>
      intro s e he
      simp only [runTriggerLoop] at he
      by_cases hb : (s.batchUpdates && s.isBatching) = true
      · rw [if_pos hb] at he
        by_cases hx : x ∈ s.scheduledEffects
        · rw [if_pos hx] at he
          exact List.mem_cons_of_mem _ (ih s e he)
        · rw [if_neg hx] at he
          exact List.mem_cons_of_mem _ (ih _ e he)
      · rw [if_neg hb] at he
        by_cases hs : (getObs s x).hasScheduler = true
        · rw [if_pos hs] at he
          rcases List.mem_cons.mp he with rfl | he'
          · exact List.mem_cons_self _ _
          · exact List.mem_cons_of_mem _ (ih s e he')
        · rw [if_neg hs] at he
          rcases herr : (runEffectFn s x).2.2 with _ | err
          · rw [herr] at he
            simp only at he
            rcases List.mem_cons.mp he with rfl | he'
            · exact List.mem_cons_self _ _
            · rcases List.mem_append.mp he' with h1 | h2
              · rw [runEffectFn_mentions s x e h1]
                exact List.mem_cons_self _ _
              · exact List.mem_cons_of_mem _ (ih _ e h2)
          · rw [herr] at he
            simp only at he
            rcases List.mem_cons.mp he with rfl | he'
            · exact List.mem_cons_self _ _
            · rw [runEffectFn_mentions s x e he']
              exact List.mem_cons_self _ _

theorem countEv_zero_of_mentions {ev : List Event} {l : List Nat}
    (hm : ∀ e ∈ ev, mentions e ∈ l) (e : Event) (he : mentions e ∉ l) :
    countEv ev e = 0 := by
  refine countEv_eq_zero_of_not_mem (fun hmem => ?_)
  exact he (hm e hmem)

/-! ### Propagation of the first exception on the direct path -/

theorem runTriggerLoop_throw (l1 : List Nat) : ∀ (s : SysState) (id : Nat) (l2 : List Nat),
    (s.batchUpdates && s.isBatching) = false → l1.Nodup → id ∉ l1 →
    (∀ j ∈ l1, (getObs s j).hasScheduler = true ∨ runsClean s j = true) →
    (getObs s id).hasScheduler = false → runsClean s id = false →
    (runTriggerLoop s (l1 ++ id :: l2)).2.2 = some id := by
  induction l1 with
  | nil =>
      intro s id l2 hb _ _ _ hsched hdirty
      simp only [List.nil_append, runTriggerLoop, hb, Bool.false_eq_true, if_false]
      rw [if_neg (by simp [hsched])]
      rw [runEffectFn_err_some s id hdirty]
  | cons x xs ih =>
      intro s id l2 hb hnd hnotin hcl hsched hdirty
      have hxid : id ≠ x := by
        rintro rfl
        exact hnotin (List.mem_cons_self _ _)
      have hxnotin : x ∉ xs := (List.nodup_cons.mp hnd).1
      simp only [List.cons_append, runTriggerLoop, hb, Bool.false_eq_true, if_false]
      by_cases hs : (getObs s x).hasScheduler = true
      · rw [if_pos hs]
        exact ih s id l2 hb (List.nodup_cons.mp hnd).2
          (fun h => hnotin (List.mem_cons_of_mem _ h))
          (fun j hj => hcl j (List.mem_cons_of_mem _ hj)) hsched hdirty
      · rw [if_neg hs]
        have hcleanx : runsClean s x = true := by
          rcases hcl x (List.mem_cons_self x xs) with h | h
          · exact absurd h hs
          · exact h
        rw [runEffectFn_err_none s x hcleanx]
        simp only
        obtain ⟨hfr, hobs⟩ := runEffectFn_frame s x
        obtain ⟨f1, f2, f3, f4, f5, f6, f7⟩ := hfr
        have hb' : ((runEffectFn s x).1.batchUpdates && (runEffectFn s x).1.isBatching) = false := by
          rw [f5, f6]; exact hb
        have hcl' : ∀ j ∈ xs,
            (getObs (runEffectFn s x).1 j).hasScheduler = true ∨
            runsClean (runEffectFn s x).1 j = true := by
          intro j hj
          have hjx : j ≠ x := fun h => hxnotin (h ▸ hj)
          rw [hobs j hjx, runsClean_of_frame (hobs j hjx)]
          exact hcl j (List.mem_cons_of_mem _ hj)
        have hsched2 : (getObs (runEffectFn s x).1 id).hasScheduler = false := by
          rw [hobs id hxid]; exact hsched
        have hdirty2 : runsClean (runEffectFn s x).1 id = false := by
          rw [runsClean_of_frame (hobs id hxid)]; exact hdirty
        exact ih _ id l2 hb' (List.nodup_cons.mp hnd).2
          (fun h => hnotin (List.mem_cons_of_mem _ h)) hcl' hsched2 hdirty2

/-! ### The flush loop: every queued effect runs, errors are contained -/

theorem flushLoop_exec_count (l : List Nat) : ∀ (s : SysState) (j : Nat),
    countEv (flushLoop s l).2 (Event.exec j) = cnt l j := by
  induction l with
  | nil => intro s j; rfl
  | cons x xs ih =>
      intro s j
      simp only [flushLoop]
      rcases herr : (runEffectFn s x).2.2 with _ | err
      all_goals
        simp only [herr, countEv_append, countEv_cons,
          runEffectFn_countEv s x (Event.exec j) (by simp) (by simp), ih, cnt_cons]
      · by_cases hjx : x = j <;> simp [hjx, Event.exec.injEq, countEv]
      · by_cases hjx : x = j <;> simp [hjx, Event.exec.injEq, countEv]

theorem flushLoop_schedJob (l : List Nat) : ∀ (s : SysState) (j : Nat),
    countEv (flushLoop s l).2 (Event.schedJob j) = 0 := by
  induction l with
  | nil => intro s j; rfl
  | cons x xs ih =>
      intro s j
      simp only [flushLoop]
      rcases herr : (runEffectFn s x).2.2 with _ | err <;>
        simp [herr, countEv_append, countEv_cons,
          runEffectFn_countEv s x (Event.schedJob j) (by simp) (by simp), ih, countEv]

theorem flushLoop_errorReported (l : List Nat) : ∀ (s : SysState) (id : Nat),
    id ∈ l → l.Nodup → runsClean s id = false →
    Event.errorReported id ∈ (flushLoop s l).2 := by
  induction l with
  | nil => intro s id h; cases h
  | cons x xs ih =>
      intro s id hm hnd hdirty
      simp only [flushLoop]
      rcases List.mem_cons.mp hm with rfl | hm'
      · rw [runEffectFn_err_some s id hdirty]
        simp
      · have hidx : id ≠ x := by
          rintro rfl
          exact (List.nodup_cons.mp hnd).1 hm'
        have hdirty' : runsClean (runEffectFn s x).1 id = false := by
          rw [runsClean_of_frame ((runEffectFn_frame s x).2 id hidx)]
          exact hdirty
        rcases herr : (runEffectFn s x).2.2 with _ | err <;>
          · simp only [herr]
            simp [List.mem_append,
              ih _ id hm' (List.nodup_cons.mp hnd).2 hdirty']

theorem flushLoop_mentions (l : List Nat) : ∀ (s : SysState) (e : Event),
    e ∈ (flushLoop s l).2 → mentions e ∈ l := by
  induction l with
  | nil => intro s e he; cases he
  | cons x xs ih =>
      intro s e he
      simp only [flushLoop] at he
      rcases herr : (runEffectFn s x).2.2 with _ | err <;> rw [herr] at he
      · simp only at he
        rcases List.mem_cons.mp he with rfl | he'
        · exact List.mem_cons_self _ _
        · rcases List.mem_append.mp he' with h1 | h2
          · rcases List.mem_append.mp h1 with h3 | h4
            · rw [runEffectFn_mentions s x e h3]
              exact List.mem_cons_self _ _
            · cases h4
          · exact List.mem_cons_of_mem _ (ih _ e h2)
      · simp only at he
        rcases List.mem_cons.mp he with rfl | he'
        · exact List.mem_cons_self _ _
        · rcases List.mem_append.mp he' with h1 | h2
          · rcases List.mem_append.mp h1 with h3 | h4
            · rw [runEffectFn_mentions s x e h3]
              exact List.mem_cons_self _ _
            · rcases List.mem_singleton.mp h4 with rfl
              exact List.mem_cons_self _ _
          · exact List.mem_cons_of_mem _ (ih _ e h2)

theorem flushBatch_exec_count (s : SysState) (j : Nat) :
    countEv (flushBatch s).2 (Event.exec j) = cnt s.updateQueue j :=
  flushLoop_exec_count s.updateQueue _ j

theorem flushBatch_schedJob (s : SysState) (j : Nat) :
    countEv (flushBatch s).2 (Event.schedJob j) = 0 :=
  flushLoop_schedJob s.updateQueue _ j

theorem flushBatch_errorReported (s : SysState) (id : Nat)
    (hm : id ∈ s.updateQueue) (hnd : s.updateQueue.Nodup)
    (hdirty : runsClean s id = false) :
    Event.errorReported id ∈ (flushBatch s).2 := by
  refine flushLoop_errorReported s.updateQueue _ id hm hnd ?_
  have : getObs { s with isBatching := false, batchStack := 0,
                         updateQueue := [], scheduledEffects := ([] : List Nat) } id = getObs s id := rfl
  rw [runsClean_of_frame this]
  exact hdirty

theorem flushBatch_mentions (s : SysState) (e : Event)
    (he : e ∈ (flushBatch s).2) : mentions e ∈ s.updateQueue :=
  flushLoop_mentions s.updateQueue _ e he

/-! ### Interpreting a batch body: triggers only enqueue -/

theorem interpCmd_batching (c : BCmd) : ∀ s : SysState,
    s.isBatching = true → s.batchUpdates = true →
    interpCmd s c =
      ({ s with
          updateQueue :=
            (enqAll (s.updateQueue, s.scheduledEffects)
              (trigTargets s.deps s.observers c)).1,
          scheduledEffects :=
            (enqAll (s.updateQueue, s.scheduledEffects)
              (trigTargets s.deps s.observers c)).2 },
       [], none) := by
  induction c with
  | skip =>
      intro s hib hbu
      simp [interpCmd, trigTargets, enqAll]
  | write t k =>
      intro s hib hbu
      simp only [interpCmd, trigger]
      rw [runTriggerLoop_batching _ s hbu hib]
      rfl
  | seq a b iha ihb =>
      intro s hib hbu
      simp only [interpCmd]
      rw [iha s hib hbu]
      simp only
      rw [ihb _ (by simp [hib]) (by simp [hbu])]
      simp only [trigTargets, List.nil_append]
      obtain ⟨obs, dps, uq, se, bs, ib, bu, rv⟩ := s
      simp [enqAll, List.foldl_append]
  | nest body ihbody =>
      intro s hib hbu
      simp only [interpCmd]
      rw [ihbody _ (by simp) (by simp [hbu])]
      simp only
      obtain ⟨obs, dps, uq, se, bs, ib, bu, rv⟩ := s
      simp only at hib
      subst hib
      simp [trigTargets]

/-! ### Stopping an effect -/

theorem not_mem_filter_ne (l : List Nat) (id : Nat) :
    id ∉ l.filter (fun j => j != id) := by
  intro h
  have := (List.mem_filter.mp h).2
  simp at this

theorem stopEffect_inactive (s : SysState) (id : Nat)
    (h : (getObs s id).isActive = false) : stopEffect s id = (s, [], none) := by
  unfold stopEffect
  rw [if_neg (by simp [h])]

theorem stopEffect_deactivates (s : SysState) (id : Nat) :
    (getObs (stopEffect s id).1 id).isActive = false := by
  unfold stopEffect
  by_cases ha : (getObs s id).isActive = true
  · rw [if_pos ha]
    rcases hcl : (getObs s id).cleanup with _ | bl
    · simp [getObs, getObsOf, setObs, alookup_aset_self]
    · rcases bl with _ | ⟨b, rest⟩
      · simp [getObs, getObsOf, setObs, alookup_aset_self]
      · cases b <;> simp [getObs, getObsOf, setObs, alookup_aset_self]
  · rw [if_neg ha]
    simp [Bool.eq_false_iff.mpr ha]

theorem stopEffect_idem (s : SysState) (id : Nat) :
    stopEffect (stopEffect s id).1 id = ((stopEffect s id).1, [], none) :=
  stopEffect_inactive _ id (stopEffect_deactivates s id)

theorem stopEffect_dequeues (s : SysState) (id : Nat)
    (ha : (getObs s id).isActive = true)
    (he : (stopEffect s id).2.2 = none) :
    (stopEffect s id).1.updateQueue = s.updateQueue.filter (fun j => j != id) ∧
    (stopEffect s id).1.scheduledEffects = s.scheduledEffects.filter (fun j => j != id) := by
  unfold stopEffect at he ⊢
  rw [if_pos ha] at he ⊢
  rcases hcl : (getObs s id).cleanup with _ | bl
  · exact ⟨rfl, rfl⟩
  · rcases bl with _ | ⟨b, rest⟩
    · exact ⟨rfl, rfl⟩
    · cases b
      · exact ⟨rfl, rfl⟩
      · rw [hcl] at he
        exact Option.noConfusion he

theorem stopEffect_unregisters (s : SysState) (id : Nat)
    (ha : (getObs s id).isActive = true) :
    ∀ (t : Nat) (k : String), id ∉ getDep (stopEffect s id).1 t k := by
  intro t k
  have hdep : (stopEffect s id).1.deps =
      s.deps.map (fun p => (p.1, p.2.filter (fun j => j != id))) := by
    unfold stopEffect
    rw [if_pos ha]
    rcases hcl : (getObs s id).cleanup with _ | bl
    · simp [setObs]
    · rcases bl with _ | ⟨b, rest⟩
      · simp [setObs]
      · cases b <;> simp [setObs]
  rw [getDep, getDepOf, hdep, alookup_map_snd]
  rcases alookup s.deps (t, k) with _ | l
  · simp
  · simp [not_mem_filter_ne l id]

theorem stopEffect_throw (s : SysState) (id : Nat) (rest : List Bool)
    (ha : (getObs s id).isActive = true)
    (hcl : (getObs s id).cleanup = some (true :: rest)) :
    (stopEffect s id).2.2 = some id ∧
    (stopEffect s id).2.1 = [Event.cleanupRun id] ∧
    (stopEffect s id).1.updateQueue = s.updateQueue ∧
    (stopEffect s id).1.scheduledEffects = s.scheduledEffects := by
  unfold stopEffect
  rw [if_pos ha, hcl]
  exact ⟨rfl, rfl, rfl, rfl⟩

theorem stopEffect_frame_queues (s : SysState) (id : Nat) :
    (stopEffect s id).1.isBatching = s.isBatching ∧
    (stopEffect s id).1.batchUpdates = s.batchUpdates ∧
    (stopEffect s id).1.batchStack = s.batchStack := by
  unfold stopEffect
  by_cases ha : (getObs s id).isActive = true
  · rw [if_pos ha]
    rcases hcl : (getObs s id).cleanup with _ | bl
    · exact ⟨rfl, rfl, rfl⟩
    · rcases bl with _ | ⟨b, rest⟩
      · exact ⟨rfl, rfl, rfl⟩
      · cases b
        · exact ⟨rfl, rfl, rfl⟩
        · exact ⟨rfl, rfl, rfl⟩
  · rw [if_neg ha]
    exact ⟨rfl, rfl, rfl⟩

/-! ### A stopped observer is excluded from trigger fan-out -/

theorem not_mem_toRun_of_inactive (s : SysState) (ae : Option Nat)
    (t : Nat) (k : String) (id : Nat)
    (h : (getObs s id).isActive = false) : id ∉ toRunList s ae t k := by
  intro hm
  have := (List.mem_filter.mp hm).2
  rw [getObs] at h
  simp [h] at this

theorem trigger_silent_for_inactive (s : SysState) (ae : Option Nat)
    (t : Nat) (k : String) (id : Nat)
    (h : (getObs s id).isActive = false) (e : Event) (hme : mentions e = id) :
    countEv (trigger s ae t k).2.1 e = 0 := by
  refine countEv_zero_of_mentions
    (fun ev hev => runTriggerLoop_mentions _ s ev hev) e ?_
  rw [hme]
  exact not_mem_toRun_of_inactive s ae t k id h

/-! ### Remaining auxiliary lemmas -/

theorem runTriggerLoop_refVals (l : List Nat) : ∀ s : SysState,
    (runTriggerLoop s l).1.refVals = s.refVals := by
  induction l with
  | nil => intro s; rfl
  | cons x xs ih =>
      intro s
      simp only [runTriggerLoop]
      by_cases hb : (s.batchUpdates && s.isBatching) = true
      · rw [if_pos hb]
        by_cases hx : x ∈ s.scheduledEffects
        · rw [if_pos hx, ih]
        · rw [if_neg hx, ih]
      · rw [if_neg hb]
        by_cases hs : (getObs s x).hasScheduler = true
        · rw [if_pos hs]
          exact ih s
        · rw [if_neg hs]
          rcases herr : (runEffectFn s x).2.2 with _ | err <;> simp only [herr]
          · rw [ih]
            exact (runEffectFn_frame s x).1.2.2.2.2.2.2
          · exact (runEffectFn_frame s x).1.2.2.2.2.2.2

theorem runTriggerLoop_no_errorReported (l : List Nat) : ∀ (s : SysState) (j : Nat),
    countEv (runTriggerLoop s l).2.1 (Event.errorReported j) = 0 := by
  induction l with
  | nil => intro s j; rfl
  | cons x xs ih =>
      intro s j
      simp only [runTriggerLoop]
      by_cases hb : (s.batchUpdates && s.isBatching) = true
      · rw [if_pos hb]
        by_cases hx : x ∈ s.scheduledEffects
        · rw [if_pos hx]; exact ih s j
        · rw [if_neg hx]; exact ih _ j
      · rw [if_neg hb]
        by_cases hs : (getObs s x).hasScheduler = true
        · rw [if_pos hs]
          simp [ih s j]
        · rw [if_neg hs]
          rcases herr : (runEffectFn s x).2.2 with _ | err <;> simp only [herr]
          · simp [countEv_append, countEv_cons, ih,
              runEffectFn_countEv s x (Event.errorReported j) (by simp) (by simp)]
          · simp [countEv_cons,
              runEffectFn_countEv s x (Event.errorReported j) (by simp) (by simp)]

theorem mem_trigTargets (c : BCmd) :
    ∀ (deps : List ((Nat × String) × List Nat)) (obs : List (Nat × Observer))
      (t : Nat) (k : String) (o : Nat),
      (t, k) ∈ writesOf c → o ∈ toRunOf deps obs none t k →
      o ∈ trigTargets deps obs c := by
  induction c with
  | skip => intro deps obs t k o hw; cases hw
  | write t' k' =>
      intro deps obs t k o hw hm
      have h : (t, k) = (t', k') := List.mem_singleton.mp hw
      obtain ⟨h1, h2⟩ := Prod.mk.injEq t k t' k' ▸ h
      subst h1
      subst h2
      exact hm
  | seq a b iha ihb =>
      intro deps obs t k o hw hm
      rcases List.mem_append.mp hw with h | h
      · exact List.mem_append.mpr (Or.inl (iha deps obs t k o h hm))
      · exact List.mem_append.mpr (Or.inr (ihb deps obs t k o h hm))
  | nest body ihbody =>
      intro deps obs t k o hw hm
      exact ihbody deps obs t k o hw hm

theorem mem_toRunOf_of_active (deps : List ((Nat × String) × List Nat))
    (obs : List (Nat × Observer)) (t : Nat) (k : String) (o : Nat)
    (hm : o ∈ getDepOf deps t k) (ha : (getObsOf obs o).isActive = true) :
    o ∈ toRunOf deps obs none t k := by
  refine List.mem_filter.mpr ⟨hm, ?_⟩
  simp [ha]

theorem toRunOf_nodup (deps : List ((Nat × String) × List Nat))
    (obs : List (Nat × Observer)) (ae : Option Nat) (t : Nat) (k : String)
    (h : (getDepOf deps t k).Nodup) : (toRunOf deps obs ae t k).Nodup :=
  h.filter _

theorem compStep_read_dirty (c : ComputedState) :
    (compStep c CompOp.read).dirty = false := by
  unfold compStep
  by_cases h : c.dirty = true <;> simp [h]

theorem compStep_depChange_dirty (c : ComputedState) :
    (compStep c CompOp.depChange).dirty = true := by
  unfold compStep
  by_cases h : c.dirty = true <;> simp [h]

theorem compStep_depChange_runs (c : ComputedState) :
    (compStep c CompOp.depChange).getterRuns = c.getterRuns := by
  unfold compStep
  by_cases h : c.dirty = true <;> simp [h]

theorem compRun_clean_fixed (ops : List CompOp) : ∀ c : ComputedState,
    c.dirty = false → (∀ op ∈ ops, op = CompOp.read) → compRun c ops = c := by
  induction ops with
  | nil => intro c _ _; rfl
  | cons op rest ih =>
      intro c hc hops
      have hop : op = CompOp.read := hops op (List.mem_cons_self _ _)
      subst hop
      have hstep : compStep c CompOp.read = c := by
        unfold compStep
        simp [hc]
      show compRun (compStep c CompOp.read) rest = c
      rw [hstep]
      exact ih c hc (fun o ho => hops o (List.mem_cons_of_mem _ ho))

theorem compRun_dirty_fixed (ops : List CompOp) : ∀ c : ComputedState,
    c.dirty = true → (∀ op ∈ ops, op = CompOp.depChange) → compRun c ops = c := by
  induction ops with
  | nil => intro c _ _; rfl
  | cons op rest ih =>
      intro c hc hops
      have hop : op = CompOp.depChange := hops op (List.mem_cons_self _ _)
      subst hop
      have hstep : compStep c CompOp.depChange = c := by
        unfold compStep
        simp [hc]
      show compRun (compStep c CompOp.depChange) rest = c
      rw [hstep]
      exact ih c hc (fun o ho => hops o (List.mem_cons_of_mem _ ho))

theorem compStep_read_runs_of_dirty (c : ComputedState) (h : c.dirty = true) :
    (compStep c CompOp.read).getterRuns = c.getterRuns + 1 := by
  unfold compStep
  simp [h]

theorem watchStopHandle_pending (w : WatchState) :
    (watchStopHandle w).pendingCleanup = w.pendingCleanup := by
  unfold watchStopHandle
  by_cases ha : w.effectActive = true <;>
    by_cases hp : w.pendingCleanup = true <;> simp [ha, hp]

/-!
Claim theorems.

One theorem per claim of the specification review (with a witness where
the theorem carries hypotheses, and a counterexample where the claim as
frozen fails on the code).
-/

/-- C3 (code bug, evaluated at the failing input): reading an 11-key path
into a chain of 12 nested objects through `reactive` with the default
`deepReactiveMaxDepth = 10` still yields a wrapped proxy, because the get
trap calls `reactive(res)` with the depth argument defaulted to 0 instead
of depth+1; the spec-modelled depth+1 reader returns the value raw beyond
the limit, and the two readers agree while the limit is not yet
exceeded. -/
theorem claim_C3_code_eval :
    isWrapped (readPath 10 (chainObj 12) (List.replicate 11 "a")) = true ∧
    isWrapped (readPathSpec 10 (chainObj 12) (List.replicate 11 "a")) = false ∧
    isWrapped (readPathSpec 10 (chainObj 12) (List.replicate 10 "a")) = true ∧
    isWrapped (readPath 10 (chainObj 12) (List.replicate 10 "a")) = true := by
  refine ⟨?_, ?_, ?_, ?_⟩ <;> decide

/-- C5: a Computed Cell's getter runs at most once between two reads with
no dependency change in between — after a read the dirty flag is clear and
further reads are free — and at least once after any dependency change
that is followed by a read: the change sets the dirty flag, further
changes keep it set, and the next read recomputes exactly once. -/
theorem claim_C5 :
    (∀ (c : ComputedState) (ops : List CompOp),
      (∀ op ∈ ops, op = CompOp.read) →
      compRun (compStep c CompOp.read) ops = compStep c CompOp.read) ∧
    (∀ (c : ComputedState) (pre : List CompOp),
      (∀ op ∈ pre, op = CompOp.depChange) →
      (compRun (compStep c CompOp.depChange) (pre ++ [CompOp.read])).getterRuns =
        c.getterRuns + 1) := by
  constructor
  · intro c ops hops
    exact compRun_clean_fixed ops _ (compStep_read_dirty c) hops
  · intro c pre hpre
    have h1 : compRun (compStep c CompOp.depChange) (pre ++ [CompOp.read]) =
        compStep (compRun (compStep c CompOp.depChange) pre) CompOp.read := by
      unfold compRun
      rw [List.foldl_append]
      rfl
    rw [h1, compRun_dirty_fixed pre _ (compStep_depChange_dirty c) hpre,
       compStep_read_runs_of_dirty _ (compStep_depChange_dirty c),
       compStep_depChange_runs c]

/-- C5 witness: a concrete computed cell, read twice with no change
(one getter run), then changed twice and read (one more run). -/
theorem claim_C5_witness :
    compRun (compStep { dirty := true, getterRuns := 0 } CompOp.read) [CompOp.read, CompOp.read] =
      compStep { dirty := true, getterRuns := 0 } CompOp.read ∧
    (compRun (compStep { dirty := false, getterRuns := 1 } CompOp.depChange)
      ([CompOp.depChange] ++ [CompOp.read])).getterRuns = 2 :=
  ⟨claim_C5.1 { dirty := true, getterRuns := 0 } [CompOp.read, CompOp.read] (by decide),
   claim_C5.2 { dirty := false, getterRuns := 1 } [CompOp.depChange] (by decide)⟩

/-- C9 counterexample: with a pending cleanup registered, calling the
watch stop handle twice invokes the cleanup twice — not "exactly once no
matter how many times the stop handle is called" — because the handle
never clears the `pendingCleanup` slot. -/
theorem claim_C9_counterexample :
    (iterHandle 2 { effectActive := true, pendingCleanup := true, cleanupRuns := 0 }).cleanupRuns = 2 ∧
    ¬ (iterHandle 2 { effectActive := true, pendingCleanup := true, cleanupRuns := 0 }).cleanupRuns = 1 := by
  exact ⟨by decide, by decide⟩

/-- C9 (amended): the watch stop handle stops the underlying Observer and
invokes a pending cleanup once per handle invocation — the pending slot is
never cleared, so a single call runs the cleanup exactly once and k calls
run it k times. -/
theorem claim_C9 (w : WatchState) (k : Nat) (hp : w.pendingCleanup = true) :
    (watchStopHandle w).effectActive = false ∧
    (watchStopHandle w).cleanupRuns = w.cleanupRuns + 1 ∧
    (iterHandle k w).cleanupRuns = w.cleanupRuns + k := by
  refine ⟨?_, ?_, ?_⟩
  · unfold watchStopHandle
    by_cases ha : w.effectActive = true <;> simp [ha, hp]
  · unfold watchStopHandle
    by_cases ha : w.effectActive = true <;> simp [ha, hp]
  · induction k generalizing w with
    | zero => rfl
    | succ n ih =>
        show (iterHandle n (watchStopHandle w)).cleanupRuns = w.cleanupRuns + (n + 1)
        have hp' : (watchStopHandle w).pendingCleanup = true := by
          rw [watchStopHandle_pending]; exact hp
        rw [ih (watchStopHandle w) hp']
        have : (watchStopHandle w).cleanupRuns = w.cleanupRuns + 1 := by
          unfold watchStopHandle
          by_cases ha : w.effectActive = true <;> simp [ha, hp]
        rw [this]
        omega

/-- C9 witness: one call on a concrete watch state with a pending cleanup
runs it exactly once and stops the effect. -/
theorem claim_C9_witness :
    (watchStopHandle { effectActive := true, pendingCleanup := true, cleanupRuns := 0 }).effectActive = false ∧
    (watchStopHandle { effectActive := true, pendingCleanup := true, cleanupRuns := 0 }).cleanupRuns = 1 ∧
    (iterHandle 3 { effectActive := true, pendingCleanup := true, cleanupRuns := 0 }).cleanupRuns = 3 := by
  have h := claim_C9 { effectActive := true, pendingCleanup := true, cleanupRuns := 0 } 3 (by decide)
  exact ⟨h.1, h.2.1, h.2.2⟩

/-- C10: `reactive` on an array proxies a shallow copy of the target:
the copy is value-equal to the original at creation, every write, delete
and intercepted mutating method applied through the proxy leaves the
original untouched, and raw mutations of the original are invisible to
reads through the proxy. -/
theorem claim_C10 :
    (∀ a : List (Option Int), (reactiveArray a).target = a ∧ (reactiveArray a).original = a) ∧
    (∀ (r : ReactiveArr) (i : Nat) (v : Option Int), (arraySet r i v).original = r.original) ∧
    (∀ (r : ReactiveArr) (i : Nat), (arrayDelete r i).original = r.original) ∧
    (∀ (r : ReactiveArr) (v : Int), (arrayPush r v).original = r.original) ∧
    (∀ r : ReactiveArr, (arrayPop r).original = r.original) ∧
    (∀ (r : ReactiveArr) (i : Nat) (v : Option Int) (j : Nat),
      arrayGet (originalSet r i v) j = arrayGet r j ∧ (originalSet r i v).target = r.target) :=
  ⟨fun a => ⟨rfl, rfl⟩, fun r i v => rfl, fun r i => rfl, fun r v => rfl,
   fun r => rfl, fun r i v j => ⟨rfl, rfl⟩⟩

/-- C2 counterexample: an observer whose pending cleanup throws at the
start of a re-run — the exception is NOT caught (the run returns the
error) and the body is never re-executed, contradicting the claim that
cleanup errors are caught and the body re-execution still completes. -/
theorem claim_C2_counterexample :
    (runEffectFn { observers := [(0, { cleanup := some [true] })] } 0).2.2 = some 0 ∧
    countEv (runEffectFn { observers := [(0, { cleanup := some [true] })] } 0).2.1
      (Event.bodyRun 0) = 0 := by
  exact ⟨by decide, by decide⟩

/-- C2 (amended): errors thrown by a registered cleanup are NOT caught.
At the start of a re-run a throwing cleanup propagates out of the effect
function, the cleanup slot stays set, and the body does not run; during
`stop()` a throwing cleanup propagates after dependencies are unregistered
and the active flag is cleared, but before the pending-queue removal, so
the remainder of the stop sequence does not complete. -/
theorem claim_C2 :
    (∀ (s : SysState) (id : Nat) (rest : List Bool),
      (getObs s id).cleanup = some (true :: rest) →
      (runEffectFn s id).2.2 = some id ∧
      (runEffectFn s id).2.1 = [Event.cleanupRun id] ∧
      (runEffectFn s id).1 = setObs s id { getObs s id with cleanup := some rest }) ∧
    (∀ (s : SysState) (id : Nat) (rest : List Bool),
      (getObs s id).isActive = true →
      (getObs s id).cleanup = some (true :: rest) →
      (stopEffect s id).2.2 = some id ∧
      (stopEffect s id).1.updateQueue = s.updateQueue ∧
      (stopEffect s id).1.scheduledEffects = s.scheduledEffects ∧
      (getObs (stopEffect s id).1 id).isActive = false ∧
      ∀ (t : Nat) (k : String), id ∉ getDep (stopEffect s id).1 t k) := by
  constructor
  · intro s id rest hcl
    unfold runEffectFn
    rw [hcl]
    exact ⟨rfl, rfl, rfl⟩
  · intro s id rest ha hcl
    obtain ⟨h1, _, h3, h4⟩ := stopEffect_throw s id rest ha hcl
    exact ⟨h1, h3, h4, stopEffect_deactivates s id, stopEffect_unregisters s id ha⟩

/-- C2 witness: the amended behaviour at a concrete observer with a
throwing pending cleanup, for both the re-run path and the stop path. -/
theorem claim_C2_witness :
    (runEffectFn { observers := [(1, { cleanup := some [true, false] })] } 1).2.2 = some 1 ∧
    (stopEffect { observers := [(2, { cleanup := some [true] })],
                  updateQueue := [2], scheduledEffects := [2] } 2).2.2 = some 2 ∧
    (stopEffect { observers := [(2, { cleanup := some [true] })],
                  updateQueue := [2], scheduledEffects := [2] } 2).1.updateQueue = [2] := by
  refine ⟨(claim_C2.1 _ 1 [false] (by decide)).1, ?_, ?_⟩
  · exact (claim_C2.2 _ 2 [] (by decide) (by decide)).1
  · exact (claim_C2.2 _ 2 [] (by decide) (by decide)).2.1

/-- C7 counterexample: an observer queued in an active batch whose pending
cleanup throws on its first invocation: `stop()` propagates the cleanup
error and skips the queue-removal step, so the observer is still in the
pending queue and the subsequent flush re-executes its body — the claim's
"removed from any pending batch queue" and "no triggered dependency
change ever causes the Observer to re-execute" both fail. -/
theorem claim_C7_counterexample :
    0 ∈ (stopEffect stQueuedThrow 0).1.updateQueue ∧
    (getObs (stopEffect stQueuedThrow 0).1 0).isActive = false ∧
    countEv (flushBatch (stopEffect stQueuedThrow 0).1).2 (Event.bodyRun 0) = 1 := by
  exact ⟨by decide, by decide, by decide⟩

/-- C7 (amended): `stop()` is idempotent — a second call is a no-op on the
state and performs no calls — and when the pending-cleanup invocation
inside `stop()` does not throw, the stopped observer is deactivated,
removed from both pending queues, unregistered from every dependency set,
and no later trigger or batch flush on the resulting state delivers any
event to it.  (When the cleanup throws, the queue-removal step is skipped
— see the counterexample.) -/
theorem claim_C7 :
    (∀ (s : SysState) (id : Nat),
      stopEffect (stopEffect s id).1 id = ((stopEffect s id).1, [], none)) ∧
    (∀ (s : SysState) (id : Nat),
      (getObs s id).isActive = true →
      (stopEffect s id).2.2 = none →
      (getObs (stopEffect s id).1 id).isActive = false ∧
      id ∉ (stopEffect s id).1.updateQueue ∧
      id ∉ (stopEffect s id).1.scheduledEffects ∧
      (∀ (t : Nat) (k : String), id ∉ getDep (stopEffect s id).1 t k) ∧
      (∀ (ae : Option Nat) (t : Nat) (k : String) (e : Event), mentions e = id →
        countEv (trigger (stopEffect s id).1 ae t k).2.1 e = 0) ∧
      (∀ e : Event, mentions e = id →
        countEv (flushBatch (stopEffect s id).1).2 e = 0)) := by
  constructor
  · exact fun s id => stopEffect_idem s id
  · intro s id ha he
    obtain ⟨hq, hs⟩ := stopEffect_dequeues s id ha he
    have hnq : id ∉ (stopEffect s id).1.updateQueue := by
      rw [hq]; exact not_mem_filter_ne _ id
    refine ⟨stopEffect_deactivates s id, hnq, ?_, stopEffect_unregisters s id ha, ?_, ?_⟩
    · rw [hs]; exact not_mem_filter_ne _ id
    · intro ae t k e hme
      exact trigger_silent_for_inactive _ ae t k id (stopEffect_deactivates s id) e hme
    · intro e hme
      refine countEv_zero_of_mentions
        (fun ev hev => flushBatch_mentions _ ev hev) e ?_
      rw [hme]
      exact hnq

/-- C7 witness: stopping a concrete active observer (clean cleanup
behaviour) twice equals stopping it once, it leaves the queues, and a
subsequent trigger on its dependency key delivers nothing to it. -/
theorem claim_C7_witness :
    stopEffect (stopEffect stQueuedClean 0).1 0 = ((stopEffect stQueuedClean 0).1, [], none) ∧
    0 ∉ (stopEffect stQueuedClean 0).1.updateQueue ∧
    countEv (trigger (stopEffect stQueuedClean 0).1 none 1 "value").2.1 (Event.exec 0) = 0 := by
  refine ⟨claim_C7.1 stQueuedClean 0, ?_, ?_⟩
  · exact (claim_C7.2 stQueuedClean 0 (by decide) (by decide)).2.1
  · exact (claim_C7.2 stQueuedClean 0 (by decide) (by decide)).2.2.2.2.1
      none 1 "value" (Event.exec 0) rfl

/-- C1 counterexample: an observer with a custom scheduler is triggered
inside a `batch`: it is queued, and the flush then invokes the effect
function directly — the scheduler receives no job and the observer IS
executed by the trigger path, contradicting the claim for the
batch-flush case. -/
theorem claim_C1_counterexample :
    countEv (interpCmd stSched (BCmd.nest (BCmd.write 5 "value"))).2.1 (Event.schedJob 0) = 0 ∧
    countEv (interpCmd stSched (BCmd.nest (BCmd.write 5 "value"))).2.1 (Event.exec 0) = 1 := by
  exact ⟨by decide, by decide⟩

/-- C1 (amended): when a trigger fires outside an active batch, an
observer with a custom scheduler receives exactly one zero-argument job
and is never executed directly by the trigger path; when the trigger
fires inside an active batch (batch updates enabled) no observer runs at
all — everything is queued — and the later flush executes each queued
observer directly, handing nothing to any scheduler. -/
theorem claim_C1 :
    (∀ (s : SysState) (ae : Option Nat) (t : Nat) (k : String) (id : Nat),
      (s.batchUpdates && s.isBatching) = false →
      (getObs s id).hasScheduler = true →
      id ∈ toRunList s ae t k →
      (toRunList s ae t k).Nodup →
      (∀ j ∈ toRunList s ae t k,
        (getObs s j).hasScheduler = true ∨ runsClean s j = true) →
      countEv (trigger s ae t k).2.1 (Event.schedJob id) = 1 ∧
      countEv (trigger s ae t k).2.1 (Event.exec id) = 0) ∧
    (∀ (s : SysState) (ae : Option Nat) (t : Nat) (k : String),
      s.batchUpdates = true → s.isBatching = true →
      (trigger s ae t k).2.1 = []) ∧
    (∀ (s : SysState) (id : Nat),
      countEv (flushBatch s).2 (Event.exec id) = cnt s.updateQueue id ∧
      countEv (flushBatch s).2 (Event.schedJob id) = 0) := by
  refine ⟨?_, ?_, ?_⟩
  · intro s ae t k id hb hsched hmem hnd hcl
    obtain ⟨_, hcnt⟩ := runTriggerLoop_direct (toRunList s ae t k) s hb hnd hcl
    obtain ⟨hs, he⟩ := hcnt id
    constructor
    · rw [trigger, hs, if_pos ⟨hmem, hsched⟩]
    · rw [trigger, he, if_neg]
      rintro ⟨_, hfalse⟩
      rw [hsched] at hfalse
      cases hfalse
  · intro s ae t k hbu hib
    rw [trigger, runTriggerLoop_batching _ s hbu hib]
  · intro s id
    exact ⟨flushBatch_exec_count s id, flushBatch_schedJob s id⟩

/-- C1 witness: the scheduler-observer of `stSched` triggered directly
receives one job and no direct execution; the same trigger inside a batch
emits nothing; flushing `stSched` with it queued executes it directly. -/
theorem claim_C1_witness :
    countEv (trigger stSched none 5 "value").2.1 (Event.schedJob 0) = 1 ∧
    countEv (trigger stSched none 5 "value").2.1 (Event.exec 0) = 0 ∧
    (trigger { stSched with isBatching := true } none 5 "value").2.1 = [] ∧
    countEv (flushBatch { stSched with updateQueue := [0] }).2 (Event.exec 0) = 1 := by
  obtain ⟨h1, h2, h3⟩ := claim_C1
  obtain ⟨ha, hb⟩ := h1 stSched none 5 "value" 0 (by decide) (by decide)
    (by decide) (by decide) (by decide)
  refine ⟨ha, hb, h2 _ none 5 "value" (by decide) (by decide), ?_⟩
  have := (h3 { stSched with updateQueue := [0] } 0).1
  rw [this]
  decide

/-- C6: ref writes compare with Object.is semantics — NaN equals NaN and
+0 differs from -0 — an equal write leaves the state untouched and
notifies nobody, and an unequal write (outside a batch) stores the value
and delivers exactly one notification to every active dependent and none
to stopped dependents. -/
theorem claim_C6 :
    (objectIs JSVal.nan JSVal.nan = true ∧
     objectIs JSVal.posZero JSVal.negZero = false) ∧
    (∀ (s : SysState) (ae : Option Nat) (t : Nat) (v old : JSVal),
      alookup s.refVals t = some old → objectIs old v = true →
      refSet s ae t v = (s, [], none)) ∧
    (∀ (s : SysState) (t : Nat) (v old : JSVal),
      alookup s.refVals t = some old → objectIs old v = false →
      s.isBatching = false →
      (getDep s t "value").Nodup →
      (∀ j ∈ getDep s t "value",
        (getObs s j).hasScheduler = true ∨ runsClean s j = true) →
      alookup (refSet s none t v).1.refVals t = some v ∧
      ∀ j ∈ getDep s t "value",
        ((getObs s j).isActive = true → notifCount (refSet s none t v).2.1 j = 1) ∧
        ((getObs s j).isActive = false → notifCount (refSet s none t v).2.1 j = 0)) := by
  refine ⟨⟨rfl, rfl⟩, ?_, ?_⟩
  · intro s ae t v old hl heq
    unfold refSet
    rw [hl]
    simp only [heq, if_true]
  · intro s t v old hl hne hib hnd hcl
    have hset : refSet s none t v =
        trigger { s with refVals := aset s.refVals t v } none t "value" := by
      unfold refSet
      rw [hl]
      simp [hne]
    set s' : SysState := { s with refVals := aset s.refVals t v } with hs'
    have hdeps : s'.deps = s.deps := rfl
    have hobs : s'.observers = s.observers := rfl
    have hrun : toRunList s' none t "value" = toRunOf s.deps s.observers none t "value" := rfl
    have hb' : (s'.batchUpdates && s'.isBatching) = false := by
      show (s.batchUpdates && s.isBatching) = false
      rw [hib]
      exact Bool.and_false _
    have hnd' : (toRunList s' none t "value").Nodup := by
      rw [hrun]
      exact toRunOf_nodup s.deps s.observers none t "value" hnd
    have hcl' : ∀ j ∈ toRunList s' none t "value",
        (getObs s' j).hasScheduler = true ∨ runsClean s' j = true := by
      intro j hj
      have : j ∈ getDepOf s.deps t "value" := (List.mem_filter.mp hj).1
      exact hcl j this
    obtain ⟨herr, hcnt⟩ := runTriggerLoop_direct (toRunList s' none t "value") s' hb' hnd' hcl'
    constructor
    · rw [hset]
      show alookup (trigger s' none t "value").1.refVals t = some v
      rw [trigger, runTriggerLoop_refVals]
      show alookup (aset s.refVals t v) t = some v
      exact alookup_aset_self _ t v
    · intro j hj
      obtain ⟨hs_, he_⟩ := hcnt j
      constructor
      · intro hact
        have hmem : j ∈ toRunList s' none t "value" := by
          rw [hrun]
          exact mem_toRunOf_of_active s.deps s.observers t "value" j hj hact
        rw [hset]
        show notifCount (trigger s' none t "value").2.1 j = 1
        rw [notifCount, trigger, hs_, he_]
        by_cases hsc : (getObs s' j).hasScheduler = true
        · simp [hmem, hsc]
        · have hsf : (getObs s' j).hasScheduler = false := Bool.eq_false_iff.mpr hsc
          simp [hmem, hsf]
      · intro hinact
        have hnmem : j ∉ toRunList s' none t "value" := by
          rw [hrun]
          intro hmem
          have := (List.mem_filter.mp hmem).2
          rw [show getObsOf s.observers j = getObs s j from rfl, hinact] at this
          simp at this
        rw [hset]
        show notifCount (trigger s' none t "value").2.1 j = 0
        rw [notifCount, trigger, hs_, he_]
        simp [hnmem]

/-- C6 witness: on the concrete ref state `stRef` (holding NaN), writing
NaN is a no-op, while writing +0 stores it and notifies the active
dependent exactly once and the stopped one not at all. -/
theorem claim_C6_witness :
    refSet stRef none 7 JSVal.nan = (stRef, [], none) ∧
    alookup (refSet stRef none 7 JSVal.posZero).1.refVals 7 = some JSVal.posZero ∧
    notifCount (refSet stRef none 7 JSVal.posZero).2.1 0 = 1 ∧
    notifCount (refSet stRef none 7 JSVal.posZero).2.1 1 = 0 := by
  obtain ⟨hx, heq, hnew⟩ := claim_C6
  refine ⟨heq stRef none 7 JSVal.nan JSVal.nan (by decide) (by decide), ?_, ?_, ?_⟩
  · exact (hnew stRef 7 JSVal.posZero JSVal.nan (by decide) (by decide)
      (by decide) (by decide) (by decide)).1
  · exact ((hnew stRef 7 JSVal.posZero JSVal.nan (by decide) (by decide)
      (by decide) (by decide) (by decide)).2 0 (by decide)).1 (by decide)
  · exact ((hnew stRef 7 JSVal.posZero JSVal.nan (by decide) (by decide)
      (by decide) (by decide) (by decide)).2 1 (by decide)).2 (by decide)

/-- C8: during a batch flush every queued observer is executed exactly as
often as it is queued — a throwing one is reported via the catch block and
the rest still run — while on the direct (non-batched) trigger path the
first throwing observer's exception propagates to the trigger site
(aborting the loop) and no error is ever reported-and-swallowed there. -/
theorem claim_C8 :
    (∀ (s : SysState) (id : Nat),
      countEv (flushBatch s).2 (Event.exec id) = cnt s.updateQueue id) ∧
    (∀ (s : SysState) (id : Nat),
      id ∈ s.updateQueue → s.updateQueue.Nodup → runsClean s id = false →
      Event.errorReported id ∈ (flushBatch s).2) ∧
    (∀ (s : SysState) (ae : Option Nat) (t : Nat) (k : String)
       (l1 l2 : List Nat) (id : Nat),
      (s.batchUpdates && s.isBatching) = false →
      toRunList s ae t k = l1 ++ id :: l2 →
      l1.Nodup → id ∉ l1 →
      (∀ j ∈ l1, (getObs s j).hasScheduler = true ∨ runsClean s j = true) →
      (getObs s id).hasScheduler = false → runsClean s id = false →
      (trigger s ae t k).2.2 = some id) ∧
    (∀ (s : SysState) (ae : Option Nat) (t : Nat) (k : String) (j : Nat),
      countEv (trigger s ae t k).2.1 (Event.errorReported j) = 0) := by
  refine ⟨?_, ?_, ?_, ?_⟩
  · exact fun s id => flushBatch_exec_count s id
  · exact fun s id hm hnd hd => flushBatch_errorReported s id hm hnd hd
  · intro s ae t k l1 l2 id hb hsplit hnd hnotin hcl hsched hdirty
    rw [trigger, hsplit]
    exact runTriggerLoop_throw l1 s id l2 hb hnd hnotin hcl hsched hdirty
  · intro s ae t k j
    rw [trigger]
    exact runTriggerLoop_no_errorReported _ s j

/-- C8 witness: flushing `stTwoQueued` (first queued observer throws)
executes both observers once each and reports the first one's error;
triggering the same dependency list directly (state `stTwoDirect`)
propagates the first observer's exception. -/
theorem claim_C8_witness :
    countEv (flushBatch stTwoQueued).2 (Event.exec 0) = 1 ∧
    countEv (flushBatch stTwoQueued).2 (Event.exec 1) = 1 ∧
    Event.errorReported 0 ∈ (flushBatch stTwoQueued).2 ∧
    (trigger stTwoDirect none 3 "k").2.2 = some 0 := by
  obtain ⟨h1, h2, h3, h4⟩ := claim_C8
  refine ⟨?_, ?_, ?_, ?_⟩
  · rw [h1 stTwoQueued 0]; decide
  · rw [h1 stTwoQueued 1]; decide
  · exact h2 stTwoQueued 0 (by decide) (by decide) (by decide)
  · exact h3 stTwoDirect none 3 "k" [] [1] 0 (by decide) (by decide)
      (by decide) (by decide) (by decide) (by decide) (by decide)

/-- C4: with batch updates enabled, interpreting `batch(fn)` from a clean
non-batching state emits no observer execution while `fn` (including any
nested `batch` calls, which never drain) is running, deduplicates the
pending queue, and an observer triggered by at least one write inside
`fn` to one of its dependencies is executed exactly once, by the flush
after the outermost body returns. -/
theorem claim_C4 (s : SysState) (o : Nat) (body : BCmd)
    (hbu : s.batchUpdates = true) (hib : s.isBatching = false)
    (hbs : s.batchStack = 0) (hq : s.updateQueue = [])
    (hse : s.scheduledEffects = [])
    (hw : ∃ w ∈ writesOf body, o ∈ toRunOf s.deps s.observers none w.1 w.2) :
    (interpCmd { s with batchStack := s.batchStack + 1, isBatching := true } body).2.1 = [] ∧
    (interpCmd { s with batchStack := s.batchStack + 1, isBatching := true } body).1.updateQueue.Nodup ∧
    countEv (interpCmd s (BCmd.nest body)).2.1 (Event.exec o) = 1 := by
  obtain ⟨obs, dps, uq, se, bs, ib, bu, rv⟩ := s
  simp only at hbu hib hbs hq hse hw ⊢
  subst hbu
  subst hib
  subst hbs
  subst hq
  subst hse
  have hBatch := interpCmd_batching body
    { observers := obs, deps := dps, updateQueue := [], scheduledEffects := [],
      batchStack := 0 + 1, isBatching := true, batchUpdates := true, refVals := rv }
    rfl rfl
  simp only at hBatch
  rw [enqAll_diag] at hBatch
  have hmemT : o ∈ trigTargets dps obs body := by
    obtain ⟨w, hwmem, hwrun⟩ := hw
    exact mem_trigTargets body dps obs w.1 w.2 o (by simpa using hwmem) hwrun
  have hndT : (dd [] (trigTargets dps obs body)).Nodup :=
    dd_nodup _ [] List.nodup_nil
  have hmemQ : o ∈ dd [] (trigTargets dps obs body) :=
    (dd_mem _ [] o).mpr (Or.inr hmemT)
  refine ⟨?_, ?_, ?_⟩
  · rw [hBatch]
  · rw [hBatch]
    exact hndT
  · simp only [interpCmd]
    rw [hBatch]
    simp only [decide_True, Bool.and_self, if_true, List.nil_append]
    rw [flushBatch_exec_count]
    exact cnt_eq_one_of_nodup_mem hndT hmemQ

/-- C4 witness: three writes (one in a nested batch) to dependencies of
observer 0 in `stTwoDeps` yield no execution during the body and exactly
one execution of observer 0 overall. -/
theorem claim_C4_witness :
    (interpCmd stTwoDepsIn bodyW).2.1 = [] ∧
    countEv (interpCmd stTwoDeps (BCmd.nest bodyW)).2.1 (Event.exec 0) = 1 := by
  have h := claim_C4 stTwoDeps 0 bodyW rfl rfl rfl rfl rfl (by decide)
  exact ⟨h.1, h.2.2⟩

end Reactivity
